import Mathlib

/-!
Shallow embedding of the heatmap ETL pipeline (Go sources `cmd/backfill.go`,
`cmd/collectDiffs.go`, `cmd/root.go`).

The pipeline has two batch stages:
* backfill: correlate Jira bug issues with merged GitHub PRs and insert
  mapping records (`cmd/backfill.go`);
* diff enrichment: for mapped PRs without a stored diff, fetch the changed
  files and insert diff records (`cmd/collectDiffs.go`).

External effects are modelled explicitly:
* HTTP calls are oracles passed in as functions;
* a Go `panic` (the code panics on transport and decode failures and on
  out-of-range slice indexing) is modelled as `Option.none` bubbling up
  through the run;
* the MongoDB collections are lists of the documents they hold, and a batch
  insert is list append.

Go's `map[int]*[]jiraPR` is modelled as an association list with
insert-or-overwrite semantics. Go map iteration order is unspecified; the
model iterates in insertion order. Every property proved below is
insensitive to that order (emptiness, counts, membership).
-/

set_option autoImplicit false

namespace Heatmap

/-- Structural-fuel worker for Go's `strings.Split`: scans the character list
left to right, cutting at each non-overlapping occurrence of `sep`. `fuel` is
an upper bound on the number of characters still to scan; callers pass the
length of the scanned list, so the fuel-exhausted branch is unreachable. -/
def splitGo (sep : List Char) : Nat → List Char → List Char → List (List Char)
  | _, [], acc => [acc.reverse]
  | 0, c :: rest, acc => [acc.reverse ++ c :: rest]
  | fuel + 1, c :: rest, acc =>
    if (c :: rest).take sep.length = sep then
      acc.reverse :: splitGo sep fuel ((c :: rest).drop sep.length) []
    else
      splitGo sep fuel rest (c :: acc)

/-- Model of Go's `strings.Split(s, sep)`: all substrings of `s` between
non-overlapping instances of `sep`, left to right. With an empty separator Go
splits into single characters. -/
def goSplit (s sep : String) : List String :=
  match sep.data with
  | [] => s.data.map (fun c => String.mk [c])
  | c :: cs => (splitGo (c :: cs) s.data.length s.data []).map String.mk

/-- Value of a digit list, most significant first (the accumulator loop of
`strconv.Atoi` on a valid input). -/
def digitsVal (ds : List Char) : Nat :=
  ds.foldl (fun a c => a * 10 + (c.toNat - 48)) 0

/-- Syntactic validity test of Go's `strconv.Atoi`: an optional single sign
followed by at least one digit and nothing else. -/
def goAtoiValid (cs : List Char) : Bool :=
  match cs with
  | '+' :: rest => !rest.isEmpty && rest.all Char.isDigit
  | '-' :: rest => !rest.isEmpty && rest.all Char.isDigit
  | _ => !cs.isEmpty && cs.all Char.isDigit

/-- Signed value of a character list that passed `goAtoiValid`. -/
def atoiSigned (cs : List Char) : Int :=
  match cs with
  | '-' :: rest => -(digitsVal rest : Int)
  | '+' :: rest => (digitsVal rest : Int)
  | _ => (digitsVal cs : Int)

/-- Model of Go's `strconv.Atoi` with the error discarded, as in
`m.PRID, _ = strconv.Atoi(pr.ID[1:])` (backfill.go:260): on a syntax error
Atoi returns `0`, and the code keeps that `0`. The model uses unbounded `Int`
and so ignores Go's 64-bit range clamping, which no claim touches. -/
def atoiChars (cs : List Char) : Int :=
  if goAtoiValid cs then atoiSigned cs else 0

/-- Jira issue (`bug` in backfill.go): id and key. -/
structure bug where
  ID : Int
  Key : String
  deriving DecidableEq

/-- PR data as reported by Jira's dev-status endpoint (`jiraPR`). -/
structure jiraPR where
  ID : String
  Status : String
  URL : String
  deriving DecidableEq

/-- GitHub repository reference (`Repo` in root.go): owner and name. -/
structure Repo where
  Owner : String
  Name : String
  deriving DecidableEq

/-- Mapping document written to the Mongo jira collection (`mongoMapping` in
backfill.go). The auto-generated `_id` field is omitted. -/
structure mongoMapping where
  Project : String
  IssueID : Int
  Repo : Repo
  PRID : Int
  deriving DecidableEq

/-- Outcome of the raw dev-status HTTP round trip consumed by
`findDevStatus` (backfill.go:222-234): a transport failure, a JSON decode
failure, or a decoded `devStatusResponse` carrying `Detail`, each detail
element carrying its `pullRequests` list. -/
inductive DevFetch where
  | transportError
  | decodeError
  | response (detail : List (List jiraPR))
  deriving DecidableEq

/-- Result of `findDevStatus` as the orchestrator sees it. `aborted` models a
Go `panic` (transport error, decode error, or indexing `Detail[0]` on an
empty `Detail`), which kills the whole process; `notFound` is the returned
error value for an issue with zero linked PRs; `found` is the success path. -/
inductive FDSResult where
  | aborted
  | notFound
  | found (prs : List jiraPR)
  deriving DecidableEq

/-- Model of `findDevStatus` (backfill.go:208-241). Transport and decode
errors panic; an empty `Detail` panics at `devStatus.Detail[0]`; an empty PR
list returns the error `"Dev status not found"`; otherwise the PR list is
returned. -/
def findDevStatus (f : DevFetch) : FDSResult :=
  match f with
  | .transportError => .aborted
  | .decodeError => .aborted
  | .response [] => .aborted
  | .response (prs :: _) => if prs.length = 0 then .notFound else .found prs

/-- Model of `getAlreadyMappedIssueIDs` (backfill.go:181-206): one scan of
the jira collection projecting the `issue_id` field; the Go map's key set is
the list of issue ids, queried by membership. -/
def getAlreadyMappedIssueIDs (store : List mongoMapping) : List Int :=
  store.map (fun m => m.IssueID)

/-- Owner/name extraction from a PR web URL, staged exactly as
backfill.go:252-254 does it: `strings.Split(pr.URL, "/pull")[0]`, then
`strings.Split(repoURL, "github.com/")[1]` (a `none` models the index-1
panic when `"github.com/"` does not occur), then `strings.Split(repo, "/")`
indexed at 0 and 1 (a `none` models the index-1 panic when there is no
`"/"`). -/
def urlOwnerName (url : String) : Option (String × String) :=
  match goSplit url "/pull" with
  | [] => none
  | repoURL :: _ =>
    match (goSplit repoURL "github.com/").get? 1 with
    | none => none
    | some repo =>
      match goSplit repo "/" with
      | owner :: name :: _ => some (owner, name)
      | _ => none

/-- Conversion of one merged PR into a mapping document (the loop body of
backfill.go:252-262). `none` models a panic: a URL on which the unguarded
splits index out of range, or an empty tracker id (Go `pr.ID[1:]` panics on
an empty string). The numeric suffix is parsed with the Atoi error
discarded. -/
def convertOnePR (project : String) (issueID : Int) (pr : jiraPR) : Option mongoMapping :=
  match urlOwnerName pr.URL with
  | none => none
  | some (owner, name) =>
    match pr.ID.data with
    | [] => none
    | _ :: idRest => some ⟨project, issueID, ⟨owner, name⟩, atoiChars idRest⟩

/-- Inner loop of `convertJiraMappingsToMongoMappings` over one issue's PR
list (backfill.go:247-263): non-`MERGED` PRs are skipped with `continue`;
each `MERGED` PR is converted, a failed conversion aborting the run. -/
def convertPRList (project : String) (issueID : Int) : List jiraPR → Option (List mongoMapping)
  | [] => some []
  | pr :: rest =>
    if pr.Status ≠ "MERGED" then convertPRList project issueID rest
    else
      match convertOnePR project issueID pr with
      | none => none
      | some m =>
        match convertPRList project issueID rest with
        | none => none
        | some ms => some (m :: ms)

/-- Model of `convertJiraMappingsToMongoMappings` (backfill.go:243-267). The
Go map is an association list iterated in insertion order (Go's iteration
order is unspecified; the proved properties do not depend on it). The
`project` global is threaded explicitly. -/
def convertJiraMappingsToMongoMappings (project : String) :
    List (Int × List jiraPR) → Option (List mongoMapping)
  | [] => some []
  | (k, prs) :: rest =>
    match convertPRList project k prs with
    | none => none
    | some ms =>
      match convertJiraMappingsToMongoMappings project rest with
      | none => none
      | some tail => some (ms ++ tail)

/-- Go map lookup on the association-list model: the value of the first
entry with the key, if any. -/
def lookupGo : List (Int × List jiraPR) → Int → Option (List jiraPR)
  | [], _ => none
  | p :: rest, k => if p.1 = k then some p.2 else lookupGo rest k

/-- Go map insertion on the association-list model: overwrite the first
entry with the key if present, else append a new entry. The loop building
the map keeps keys unique, so this realizes Go's `m[k] = v`. -/
def insertGo : List (Int × List jiraPR) → Int → List jiraPR → List (Int × List jiraPR)
  | [], k, v => [(k, v)]
  | p :: rest, k, v => if p.1 = k then (k, v) :: rest else p :: insertGo rest k v

/-- The issue loop of `backfill` (backfill.go:101-109): for each bug not in
the already-mapped set, look up dev status; a returned error (`notFound`)
skips the issue, a panic (`aborted`) kills the run, success stores the PR
list under the issue id. -/
def collectLoop (already : List Int) (dev : Int → DevFetch)
    (acc : List (Int × List jiraPR)) : List bug → Option (List (Int × List jiraPR))
  | [] => some acc
  | b :: rest =>
    if already.contains b.ID then collectLoop already dev acc rest
    else
      match findDevStatus (dev b.ID) with
      | .aborted => none
      | .notFound => collectLoop already dev acc rest
      | .found prs => collectLoop already dev (insertGo acc b.ID prs) rest

/-- One backfill run (backfill.go:82-128) against a given store content,
bug list and dev-status oracle, returning the list of mapping documents the
run inserts (`[]` when either early return fires, since both print and
return without writing), or `none` when the run panics. -/
def backfillRun (project : String) (store : List mongoMapping) (bugs : List bug)
    (dev : Int → DevFetch) : Option (List mongoMapping) :=
  match collectLoop (getAlreadyMappedIssueIDs store) dev [] bugs with
  | none => none
  | some m =>
    if m.isEmpty then some []
    else convertJiraMappingsToMongoMappings project m

/-- Repo/PR pair decoded from the anti-join output (`PR` in collectDiffs.go).
The `repo` field is a single string there (split on `"/"` before the GitHub
call). -/
structure PR where
  Repo : String
  PRID : Int
  deriving DecidableEq

/-- Per-file numeric counts (`diff` in collectDiffs.go). -/
structure diff where
  Additions : Int
  Deletions : Int
  Changes : Int
  deriving DecidableEq

/-- One changed file of a PR (`change` in collectDiffs.go). -/
structure change where
  File : String
  Status : String
  Diff : diff
  deriving DecidableEq

/-- Diff document written to the Mongo github collection (`prChanges` in
collectDiffs.go). The auto-generated `_id` field is omitted. -/
structure prChanges where
  Repo : String
  PRID : Int
  Changes : List change
  deriving DecidableEq

/-- One entry of the GitHub list-files response (the fields of
`github.CommitFile` that collectDiffs.go dereferences). -/
structure ghFile where
  Filename : String
  Status : String
  Additions : Int
  Deletions : Int
  Changes : Int
  deriving DecidableEq

/-- Transformation of one GitHub file entry into a stored change
(collectDiffs.go:168-178). -/
def toChange (f : ghFile) : change :=
  ⟨f.Filename, f.Status, ⟨f.Additions, f.Deletions, f.Changes⟩⟩

/-- Model of the `client.PullRequests.ListFiles` call at collectDiffs.go:160.
The upstream oracle gives each PR's full changed-file list (`none` a
transport error, on which the Go code panics). The endpoint is paginated at
100 items per page (spec §6); the single call with
`ListOptions{PerPage: 100}` and no page number returns only the first page,
i.e. the first 100 entries. -/
def listFiles (upstream : String → String → Int → Option (List ghFile))
    (owner name : String) (prid : Int) : Option (List ghFile) :=
  match upstream owner name prid with
  | none => none
  | some files => some (files.take 100)

/-- Model of `collectPRChanges` (collectDiffs.go:154-193): for each pair, the
repo string is split on `"/"` (fewer than two parts panics at
`repoParts[1]`), the first page of files is fetched (an error panics), each
file becomes a `change` in order, and one `prChanges` document per pair is
appended in input order. -/
def collectPRChanges (upstream : String → String → Int → Option (List ghFile)) :
    List PR → Option (List prChanges)
  | [] => some []
  | p :: rest =>
    match goSplit p.Repo "/" with
    | owner :: name :: _ =>
      match listFiles upstream owner name p.PRID with
      | none => none
      | some files =>
        match collectPRChanges upstream rest with
        | none => none
        | some tail => some (⟨p.Repo, p.PRID, files.map toChange⟩ :: tail)
    | _ => none

/-- Model of `getNotAnalyzedPRs` (collectDiffs.go:90-141): the aggregation
pipeline `$lookup` (join github documents on equal `pr_id`), `$match` (keep
jira documents whose join result is empty) and `$project` (keep `repo` and
`pr_id`), staged in that order over the collection contents in order. The
projected repo value is carried through unchanged as the stored `Repo`
structure; the Go code decodes it into `PR.Repo`'s string field. -/
def getNotAnalyzedPRs (jira : List mongoMapping) (github : List prChanges) :
    List (Repo × Int) :=
  let looked := jira.map (fun m => (m, github.filter (fun g => g.PRID == m.PRID)))
  let matched := looked.filter (fun p => p.2.length == 0)
  matched.map (fun p => (p.1.Repo, p.1.PRID))

/-! ### Lemmas about the conversion to mapping documents -/

/-- A successful per-PR conversion stamps the originating issue id. -/
theorem convertOnePR_issueID (project : String) (k : Int) (pr : jiraPR) (r : mongoMapping)
    (h : convertOnePR project k pr = some r) : r.IssueID = k := by
  unfold convertOnePR at h
  cases hu : urlOwnerName pr.URL with
  | none => rw [hu] at h; simp at h
  | some pq =>
    rw [hu] at h
    obtain ⟨o, n⟩ := pq
    cases hd : pr.ID.data with
    | nil => rw [hd] at h; simp at h
    | cons c idRest =>
      rw [hd] at h
      simp only [Option.some.injEq] at h
      rw [← h]

/-- A successful per-PR conversion takes its repo from the URL parse. -/
theorem convertOnePR_repo (project : String) (k : Int) (pr : jiraPR) (r : mongoMapping)
    (h : convertOnePR project k pr = some r) :
    ∃ o n, urlOwnerName pr.URL = some (o, n) ∧ r.Repo = ⟨o, n⟩ := by
  unfold convertOnePR at h
  cases hu : urlOwnerName pr.URL with
  | none => rw [hu] at h; simp at h
  | some pq =>
    rw [hu] at h
    obtain ⟨o, n⟩ := pq
    cases hd : pr.ID.data with
    | nil => rw [hd] at h; simp at h
    | cons c idRest =>
      rw [hd] at h
      simp only [Option.some.injEq] at h
      exact ⟨o, n, rfl, by rw [← h]⟩

/-- The per-issue conversion loop produces one document per MERGED entry. -/
theorem convertPRList_length (project : String) (k : Int) (prs : List jiraPR)
    (ms : List mongoMapping) (h : convertPRList project k prs = some ms) :
    ms.length = prs.countP (fun pr => pr.Status == "MERGED") := by
  induction prs generalizing ms with
  | nil =>
    simp only [convertPRList, Option.some.injEq] at h
    subst h
    simp
  | cons pr rest ih =>
    rw [convertPRList] at h
    by_cases hs : pr.Status = "MERGED"
    · rw [if_neg (by simp [hs])] at h
      cases hc : convertOnePR project k pr with
      | none => rw [hc] at h; simp at h
      | some m0 =>
        rw [hc] at h
        cases hr : convertPRList project k rest with
        | none => rw [hr] at h; simp at h
        | some ms' =>
          rw [hr] at h
          simp only [Option.some.injEq] at h
          subst h
          simp [List.countP_cons, hs, ih ms' hr]
    · rw [if_pos hs] at h
      have := ih ms h
      simp [List.countP_cons, hs, this]

/-- Every document produced by the per-issue loop comes from a MERGED entry. -/
theorem convertPRList_mem (project : String) (k : Int) (prs : List jiraPR)
    (ms : List mongoMapping) (h : convertPRList project k prs = some ms) :
    ∀ r ∈ ms, ∃ pr ∈ prs, pr.Status = "MERGED" ∧ convertOnePR project k pr = some r := by
  induction prs generalizing ms with
  | nil =>
    simp only [convertPRList, Option.some.injEq] at h
    subst h
    simp
  | cons pr rest ih =>
    intro r hr
    rw [convertPRList] at h
    by_cases hs : pr.Status = "MERGED"
    · rw [if_neg (by simp [hs])] at h
      cases hc : convertOnePR project k pr with
      | none => rw [hc] at h; simp at h
      | some m0 =>
        rw [hc] at h
        cases hrest : convertPRList project k rest with
        | none => rw [hrest] at h; simp at h
        | some ms' =>
          rw [hrest] at h
          simp only [Option.some.injEq] at h
          subst h
          rcases List.mem_cons.mp hr with h0 | h0
          · exact ⟨pr, List.mem_cons_self _ _, hs, h0 ▸ hc⟩
          · obtain ⟨pr', hpr', hst, hcv⟩ := ih ms' hrest r h0
            exact ⟨pr', List.mem_cons_of_mem _ hpr', hst, hcv⟩
    · rw [if_pos hs] at h
      obtain ⟨pr', hpr', hst, hcv⟩ := ih ms h r hr
      exact ⟨pr', List.mem_cons_of_mem _ hpr', hst, hcv⟩

/-- Conversely, every MERGED entry of a successfully converted list is
represented among the produced documents. -/
theorem convertPRList_merged_covered (project : String) (k : Int) (prs : List jiraPR)
    (ms : List mongoMapping) (h : convertPRList project k prs = some ms)
    (pr : jiraPR) (hpr : pr ∈ prs) (hst : pr.Status = "MERGED") :
    ∃ r ∈ ms, convertOnePR project k pr = some r := by
  induction prs generalizing ms with
  | nil => simp at hpr
  | cons pr0 rest ih =>
    rw [convertPRList] at h
    by_cases hs : pr0.Status = "MERGED"
    · rw [if_neg (by simp [hs])] at h
      cases hc : convertOnePR project k pr0 with
      | none => rw [hc] at h; simp at h
      | some m0 =>
        rw [hc] at h
        cases hrest : convertPRList project k rest with
        | none => rw [hrest] at h; simp at h
        | some ms' =>
          rw [hrest] at h
          simp only [Option.some.injEq] at h
          subst h
          rcases List.mem_cons.mp hpr with h0 | h0
          · exact ⟨m0, List.mem_cons_self _ _, h0 ▸ hc⟩
          · obtain ⟨r, hrm, hcv⟩ := ih ms' hrest h0
            exact ⟨r, List.mem_cons_of_mem _ hrm, hcv⟩
    · rw [if_pos hs] at h
      rcases List.mem_cons.mp hpr with h0 | h0
      · exact absurd (h0 ▸ hst) hs
      · exact ih ms h h0

/-- A PR list with no MERGED entry converts to no documents and cannot
abort. -/
theorem convertPRList_of_noMerged (project : String) (k : Int) (prs : List jiraPR)
    (h : ∀ pr ∈ prs, pr.Status ≠ "MERGED") :
    convertPRList project k prs = some [] := by
  induction prs with
  | nil => rfl
  | cons pr rest ih =>
    rw [convertPRList, if_pos (h pr (List.mem_cons_self _ _))]
    exact ih fun pr' hpr' => h pr' (List.mem_cons_of_mem _ hpr')

/-- Every document produced by the whole conversion comes from a MERGED
entry of some issue of the input map. -/
theorem convert_mem (project : String) (m : List (Int × List jiraPR))
    (R : List mongoMapping) (h : convertJiraMappingsToMongoMappings project m = some R) :
    ∀ r ∈ R, ∃ k prs pr, (k, prs) ∈ m ∧ pr ∈ prs ∧ pr.Status = "MERGED" ∧
      convertOnePR project k pr = some r := by
  induction m generalizing R with
  | nil =>
    simp only [convertJiraMappingsToMongoMappings, Option.some.injEq] at h
    subst h
    simp
  | cons e rest ih =>
    intro r hr
    obtain ⟨k, prs⟩ := e
    rw [convertJiraMappingsToMongoMappings] at h
    cases he : convertPRList project k prs with
    | none => rw [he] at h; simp at h
    | some ms =>
      rw [he] at h
      cases hrest : convertJiraMappingsToMongoMappings project rest with
      | none => rw [hrest] at h; simp at h
      | some tail =>
        rw [hrest] at h
        simp only [Option.some.injEq] at h
        subst h
        rcases List.mem_append.mp hr with h0 | h0
        · obtain ⟨pr, hpr, hst, hcv⟩ := convertPRList_mem project k prs ms he r h0
          exact ⟨k, prs, pr, List.mem_cons_self _ _, hpr, hst, hcv⟩
        · obtain ⟨k', prs', pr', hm, hpr', hst, hcv⟩ := ih tail hrest r h0
          exact ⟨k', prs', pr', List.mem_cons_of_mem _ hm, hpr', hst, hcv⟩

/-- The whole conversion produces one document per MERGED entry of the
input map. -/
theorem convert_length (project : String) (m : List (Int × List jiraPR))
    (R : List mongoMapping) (h : convertJiraMappingsToMongoMappings project m = some R) :
    R.length = (m.map (fun e => e.2.countP (fun pr => pr.Status == "MERGED"))).sum := by
  induction m generalizing R with
  | nil =>
    simp only [convertJiraMappingsToMongoMappings, Option.some.injEq] at h
    subst h
    simp
  | cons e rest ih =>
    obtain ⟨k, prs⟩ := e
    rw [convertJiraMappingsToMongoMappings] at h
    cases he : convertPRList project k prs with
    | none => rw [he] at h; simp at h
    | some ms =>
      rw [he] at h
      cases hrest : convertJiraMappingsToMongoMappings project rest with
      | none => rw [hrest] at h; simp at h
      | some tail =>
        rw [hrest] at h
        simp only [Option.some.injEq] at h
        subst h
        simp [convertPRList_length project k prs ms he, ih tail hrest]

/-- A MERGED entry of a successfully converted map is represented among the
produced documents. -/
theorem convert_merged_covered (project : String) (m : List (Int × List jiraPR))
    (R : List mongoMapping) (h : convertJiraMappingsToMongoMappings project m = some R)
    (k : Int) (prs : List jiraPR) (hm : (k, prs) ∈ m)
    (pr : jiraPR) (hpr : pr ∈ prs) (hst : pr.Status = "MERGED") :
    ∃ r ∈ R, r.IssueID = k := by
  induction m generalizing R with
  | nil => simp at hm
  | cons e rest ih =>
    obtain ⟨k0, prs0⟩ := e
    rw [convertJiraMappingsToMongoMappings] at h
    cases he : convertPRList project k0 prs0 with
    | none => rw [he] at h; simp at h
    | some ms =>
      rw [he] at h
      cases hrest : convertJiraMappingsToMongoMappings project rest with
      | none => rw [hrest] at h; simp at h
      | some tail =>
        rw [hrest] at h
        simp only [Option.some.injEq] at h
        subst h
        rcases List.mem_cons.mp hm with h0 | h0
        · injection h0 with hk hprs
          subst hk
          subst hprs
          obtain ⟨r, hrm, hcv⟩ :=
            convertPRList_merged_covered project k prs ms he pr hpr hst
          exact ⟨r, List.mem_append_left _ hrm, convertOnePR_issueID project k pr r hcv⟩
        · obtain ⟨r, hrm, hid⟩ := ih tail hrest h0
          exact ⟨r, List.mem_append_right _ hrm, hid⟩

/-- A map whose entries all lack MERGED PRs converts to the empty document
list without aborting. -/
theorem convert_of_noMerged (project : String) (m : List (Int × List jiraPR))
    (h : ∀ e ∈ m, ∀ pr ∈ e.2, pr.Status ≠ "MERGED") :
    convertJiraMappingsToMongoMappings project m = some [] := by
  induction m with
  | nil => rfl
  | cons e rest ih =>
    obtain ⟨k, prs⟩ := e
    rw [convertJiraMappingsToMongoMappings,
      convertPRList_of_noMerged project k prs (h (k, prs) (List.mem_cons_self _ _)),
      ih fun e' he' => h e' (List.mem_cons_of_mem _ he')]
    rfl

/-! ### Lemmas about the Go-map model and the issue loop -/

/-- Characterization of lookup after insertion. -/
theorem lookupGo_insertGo (m : List (Int × List jiraPR)) (k : Int) (v : List jiraPR)
    (k' : Int) :
    lookupGo (insertGo m k v) k' = if k = k' then some v else lookupGo m k' := by
  induction m with
  | nil =>
    by_cases h : k = k' <;> simp [insertGo, lookupGo, h]
  | cons p rest ih =>
    by_cases hp : p.1 = k
    · rw [insertGo, if_pos hp]
      by_cases h : k = k'
      · simp [lookupGo, h]
      · have hp' : ¬ p.1 = k' := by rw [hp]; exact h
        simp [lookupGo, h, hp']
    · rw [insertGo, if_neg hp]
      by_cases h : k = k'
      · rw [if_pos h, lookupGo, if_neg (by rw [← h]; exact hp), ih, if_pos h]
      · rw [if_neg h, lookupGo, lookupGo, ih, if_neg h]

/-- Entries after insertion come from the old map or are the inserted pair. -/
theorem mem_insertGo (m : List (Int × List jiraPR)) (k : Int) (v : List jiraPR)
    (q : Int × List jiraPR) (h : q ∈ insertGo m k v) : q ∈ m ∨ q = (k, v) := by
  induction m with
  | nil => simp [insertGo] at h; right; exact h
  | cons p rest ih =>
    rw [insertGo] at h
    by_cases hp : p.1 = k
    · rw [if_pos hp] at h
      rcases List.mem_cons.mp h with h0 | h0
      · right; exact h0
      · left; exact List.mem_cons_of_mem _ h0
    · rw [if_neg hp] at h
      rcases List.mem_cons.mp h with h0 | h0
      · left; exact h0 ▸ List.mem_cons_self _ _
      · rcases ih h0 with h1 | h1
        · left; exact List.mem_cons_of_mem _ h1
        · right; exact h1

/-- A successful issue loop never looked up an issue whose dev-status fetch
panics. -/
theorem collectLoop_ne_aborted (already : List Int) (dev : Int → DevFetch)
    (acc : List (Int × List jiraPR)) (bugs : List bug) (m : List (Int × List jiraPR))
    (h : collectLoop already dev acc bugs = some m) :
    ∀ b ∈ bugs, ¬ already.contains b.ID = true → findDevStatus (dev b.ID) ≠ .aborted := by
  induction bugs generalizing acc with
  | nil => simp
  | cons b0 rest ih =>
    intro b hb hcon
    rw [collectLoop] at h
    by_cases h0 : already.contains b0.ID = true
    · rw [if_pos h0] at h
      rcases List.mem_cons.mp hb with hb0 | hb0
      · exact absurd (hb0 ▸ h0) hcon
      · exact ih acc h b hb0 hcon
    · rw [if_neg h0] at h
      cases hf : findDevStatus (dev b0.ID) with
      | aborted => rw [hf] at h; simp at h
      | notFound =>
        rw [hf] at h
        rcases List.mem_cons.mp hb with hb0 | hb0
        · rw [hb0, hf]; simp
        · exact ih acc h b hb0 hcon
      | found prs =>
        rw [hf] at h
        rcases List.mem_cons.mp hb with hb0 | hb0
        · rw [hb0, hf]; simp
        · exact ih _ h b hb0 hcon

/-- A binding present in the accumulator and consistent with the dev-status
oracle survives the rest of the issue loop. -/
theorem collectLoop_lookup_persist (already : List Int) (dev : Int → DevFetch)
    (acc : List (Int × List jiraPR)) (bugs : List bug) (m : List (Int × List jiraPR))
    (i : Int) (v : List jiraPR) (h : collectLoop already dev acc bugs = some m)
    (hacc : lookupGo acc i = some v) (hdev : findDevStatus (dev i) = .found v) :
    lookupGo m i = some v := by
  induction bugs generalizing acc with
  | nil =>
    simp only [collectLoop, Option.some.injEq] at h
    exact h ▸ hacc
  | cons b0 rest ih =>
    rw [collectLoop] at h
    by_cases h0 : already.contains b0.ID = true
    · rw [if_pos h0] at h
      exact ih acc h hacc
    · rw [if_neg h0] at h
      cases hf : findDevStatus (dev b0.ID) with
      | aborted => rw [hf] at h; simp at h
      | notFound => rw [hf] at h; exact ih acc h hacc
      | found prs =>
        rw [hf] at h
        refine ih _ h ?_
        rw [lookupGo_insertGo]
        by_cases hbi : b0.ID = i
        · rw [if_pos hbi]
          rw [hbi] at hf
          rw [hdev] at hf
          injection hf with hv
          rw [hv]
        · rw [if_neg hbi]
          exact hacc

/-- An issue looked up by a successful issue loop with a `found` dev status
ends up bound to that PR list in the final map. -/
theorem collectLoop_lookup_found (already : List Int) (dev : Int → DevFetch)
    (acc : List (Int × List jiraPR)) (bugs : List bug) (m : List (Int × List jiraPR))
    (b : bug) (prs : List jiraPR) (h : collectLoop already dev acc bugs = some m)
    (hb : b ∈ bugs) (hcon : ¬ already.contains b.ID = true)
    (hf : findDevStatus (dev b.ID) = .found prs) :
    lookupGo m b.ID = some prs := by
  induction bugs generalizing acc with
  | nil => simp at hb
  | cons b0 rest ih =>
    rw [collectLoop] at h
    by_cases h0 : already.contains b0.ID = true
    · rw [if_pos h0] at h
      rcases List.mem_cons.mp hb with hb0 | hb0
      · exact absurd (hb0 ▸ h0) hcon
      · exact ih acc h hb0
    · rw [if_neg h0] at h
      cases hf0 : findDevStatus (dev b0.ID) with
      | aborted => rw [hf0] at h; simp at h
      | notFound =>
        rw [hf0] at h
        rcases List.mem_cons.mp hb with hb0 | hb0
        · rw [hb0] at hf; rw [hf] at hf0; exact absurd hf0 (by simp)
        · exact ih acc h hb0
      | found prs0 =>
        rw [hf0] at h
        rcases List.mem_cons.mp hb with hb0 | hb0
        · subst hb0
          rw [hf] at hf0
          injection hf0 with hv
          subst hv
          refine collectLoop_lookup_persist already dev _ rest m b.ID prs h ?_ hf
          rw [lookupGo_insertGo, if_pos rfl]
        · exact ih _ h hb0

/-- Every binding of the map built by the issue loop comes from the starting
accumulator or records a `found` dev-status result for its key. -/
theorem collectLoop_mem (already : List Int) (dev : Int → DevFetch)
    (acc : List (Int × List jiraPR)) (bugs : List bug) (m : List (Int × List jiraPR))
    (h : collectLoop already dev acc bugs = some m) :
    ∀ q ∈ m, q ∈ acc ∨ findDevStatus (dev q.1) = .found q.2 := by
  induction bugs generalizing acc with
  | nil =>
    simp only [collectLoop, Option.some.injEq] at h
    intro q hq
    left
    exact h ▸ hq
  | cons b0 rest ih =>
    intro q hq
    rw [collectLoop] at h
    by_cases h0 : already.contains b0.ID = true
    · rw [if_pos h0] at h
      exact ih acc h q hq
    · rw [if_neg h0] at h
      cases hf : findDevStatus (dev b0.ID) with
      | aborted => rw [hf] at h; simp at h
      | notFound => rw [hf] at h; exact ih acc h q hq
      | found prs =>
        rw [hf] at h
        rcases ih _ h q hq with h1 | h1
        · rcases mem_insertGo acc b0.ID prs q h1 with h2 | h2
          · left; exact h2
          · right; rw [h2]; exact hf
        · right; exact h1

/-- Issue-loop run in which every looked-up issue either has no dev status
or only non-MERGED PRs: the loop completes and every binding of the result
map has only non-MERGED PRs. -/
theorem collectLoop_noMerged (already : List Int) (dev : Int → DevFetch)
    (bugs : List bug) (acc : List (Int × List jiraPR))
    (hdev : ∀ b ∈ bugs, ¬ already.contains b.ID = true →
      findDevStatus (dev b.ID) ≠ .aborted ∧
      ∀ prs, findDevStatus (dev b.ID) = .found prs → ∀ pr ∈ prs, pr.Status ≠ "MERGED")
    (hacc : ∀ q ∈ acc, ∀ pr ∈ q.2, pr.Status ≠ "MERGED") :
    ∃ m, collectLoop already dev acc bugs = some m ∧
      ∀ q ∈ m, ∀ pr ∈ q.2, pr.Status ≠ "MERGED" := by
  induction bugs generalizing acc with
  | nil => exact ⟨acc, rfl, hacc⟩
  | cons b0 rest ih =>
    have hdev' : ∀ b ∈ rest, ¬ already.contains b.ID = true →
        findDevStatus (dev b.ID) ≠ .aborted ∧
        ∀ prs, findDevStatus (dev b.ID) = .found prs →
          ∀ pr ∈ prs, pr.Status ≠ "MERGED" :=
      fun b hb => hdev b (List.mem_cons_of_mem _ hb)
    by_cases h0 : already.contains b0.ID = true
    · obtain ⟨m, hm, hP⟩ := ih _ hdev' hacc
      exact ⟨m, by rw [collectLoop, if_pos h0]; exact hm, hP⟩
    · obtain ⟨hna, hpr⟩ := hdev b0 (List.mem_cons_self _ _) h0
      cases hf : findDevStatus (dev b0.ID) with
      | aborted => exact absurd hf hna
      | notFound =>
        obtain ⟨m, hm, hP⟩ := ih _ hdev' hacc
        exact ⟨m, by rw [collectLoop, if_neg h0, hf]; exact hm, hP⟩
      | found prs =>
        have hacc' : ∀ q ∈ insertGo acc b0.ID prs, ∀ pr ∈ q.2, pr.Status ≠ "MERGED" := by
          intro q hq
          rcases mem_insertGo acc b0.ID prs q hq with h1 | h1
          · exact hacc q h1
          · rw [h1]; exact hpr prs hf
        obtain ⟨m, hm, hP⟩ := ih _ hdev' hacc'
        exact ⟨m, by rw [collectLoop, if_neg h0, hf]; exact hm, hP⟩

/-- Removing an issue whose dev-status lookup returns `notFound` from the
bug list does not change the issue loop at all. -/
theorem collectLoop_notFound_skip (already : List Int) (dev : Int → DevFetch)
    (acc : List (Int × List jiraPR)) (bugs₁ bugs₂ : List bug) (b : bug)
    (hb : findDevStatus (dev b.ID) = .notFound) :
    collectLoop already dev acc (bugs₁ ++ b :: bugs₂) =
      collectLoop already dev acc (bugs₁ ++ bugs₂) := by
  induction bugs₁ generalizing acc with
  | nil =>
    rw [List.nil_append, List.nil_append, collectLoop]
    by_cases h0 : already.contains b.ID = true
    · rw [if_pos h0]
    · rw [if_neg h0, hb]
  | cons b1 rest ih =>
    rw [List.cons_append, List.cons_append, collectLoop, collectLoop]
    by_cases h0 : already.contains b1.ID = true
    · rw [if_pos h0, if_pos h0, ih]
    · rw [if_neg h0, if_neg h0]
      cases hf : findDevStatus (dev b1.ID) with
      | aborted => rfl
      | notFound => exact ih acc
      | found prs => exact ih _

/-- A looked-up issue whose dev-status fetch panics aborts the whole issue
loop. -/
theorem collectLoop_abort (already : List Int) (dev : Int → DevFetch)
    (acc : List (Int × List jiraPR)) (bugs : List bug) (b : bug)
    (hb : b ∈ bugs) (hcon : ¬ already.contains b.ID = true)
    (hf : findDevStatus (dev b.ID) = .aborted) :
    collectLoop already dev acc bugs = none := by
  induction bugs generalizing acc with
  | nil => simp at hb
  | cons b0 rest ih =>
    rw [collectLoop]
    rcases List.mem_cons.mp hb with hb0 | hb0
    · subst hb0
      rw [if_neg hcon, hf]
    · by_cases h0 : already.contains b0.ID = true
      · rw [if_pos h0]; exact ih acc hb0
      · rw [if_neg h0]
        cases hf0 : findDevStatus (dev b0.ID) with
        | aborted => rfl
        | notFound => exact ih acc hb0
        | found prs => exact ih _ hb0

/-- Boolean `contains` agrees with list membership for issue-id lists. -/
theorem int_contains_iff (l : List Int) (x : Int) : l.contains x = true ↔ x ∈ l := by
  simp [List.contains]

/-- Lookup success implies membership of the binding. -/
theorem lookupGo_mem (m : List (Int × List jiraPR)) (k : Int) (v : List jiraPR)
    (h : lookupGo m k = some v) : (k, v) ∈ m := by
  induction m with
  | nil => simp [lookupGo] at h
  | cons p rest ih =>
    rw [lookupGo] at h
    by_cases hp : p.1 = k
    · rw [if_pos hp] at h
      injection h with hv
      have hpv : (k, v) = p := Prod.ext_iff.mpr ⟨hp.symm, hv.symm⟩
      exact List.mem_cons.mpr (Or.inl hpv)
    · rw [if_neg hp] at h
      exact List.mem_cons_of_mem _ (ih h)

/-- A MERGED PR whose conversion panics aborts the whole per-issue loop. -/
theorem convertPRList_abort (project : String) (k : Int) (prs : List jiraPR)
    (pr : jiraPR) (hpr : pr ∈ prs) (hst : pr.Status = "MERGED")
    (hc : convertOnePR project k pr = none) :
    convertPRList project k prs = none := by
  induction prs with
  | nil => simp at hpr
  | cons pr0 rest ih =>
    rw [convertPRList]
    rcases List.mem_cons.mp hpr with h0 | h0
    · rw [← h0, if_neg (by simp [hst]), hc]
    · by_cases hs : pr0.Status = "MERGED"
      · rw [if_neg (by simp [hs])]
        cases hc0 : convertOnePR project k pr0 with
        | none => rfl
        | some m0 => rw [ih h0]
      · rw [if_pos hs]
        exact ih h0

/-- An aborting per-issue conversion aborts the whole conversion. -/
theorem convert_abort (project : String) (m : List (Int × List jiraPR))
    (k : Int) (prs : List jiraPR) (hm : (k, prs) ∈ m)
    (hc : convertPRList project k prs = none) :
    convertJiraMappingsToMongoMappings project m = none := by
  induction m with
  | nil => simp at hm
  | cons e rest ih =>
    obtain ⟨k0, prs0⟩ := e
    rw [convertJiraMappingsToMongoMappings]
    rcases List.mem_cons.mp hm with h0 | h0
    · injection h0 with hk hprs
      subst hk
      subst hprs
      rw [hc]
    · cases he : convertPRList project k0 prs0 with
      | none => rfl
      | some ms => rw [ih h0]

/-! ### Claim theorems: backfill stage -/

/-- C2. Merged-only filtering: whenever the conversion completes, it
produces exactly one MappingRecord per MERGED entry of the input map (the
lengths agree), and every produced record originates from some MERGED entry
of some issue — no record comes from a PR with a different status. -/
theorem convert_merged_only (project : String) (m : List (Int × List jiraPR))
    (R : List mongoMapping) (h : convertJiraMappingsToMongoMappings project m = some R) :
    R.length = (m.map (fun e => e.2.countP (fun pr => pr.Status == "MERGED"))).sum ∧
    ∀ r ∈ R, ∃ k prs pr, (k, prs) ∈ m ∧ pr ∈ prs ∧ pr.Status = "MERGED" ∧
      convertOnePR project k pr = some r :=
  ⟨convert_length project m R h, convert_mem project m R h⟩

/-- Witness for C2 at a concrete mixed input: one MERGED and one OPEN PR
yield exactly one record, which comes from the MERGED entry. -/
theorem convert_merged_only_witness :
    ([(⟨"DEMO", 1, ⟨"acme", "widgets"⟩, 55⟩ : mongoMapping)]).length =
      ([((1 : Int), [jiraPR.mk "P55" "MERGED" "https://github.com/acme/widgets/pull/55",
        jiraPR.mk "P56" "OPEN" "https://github.com/acme/widgets/pull/56"])].map
        (fun e => e.2.countP (fun pr => pr.Status == "MERGED"))).sum ∧
    ∀ r ∈ [(⟨"DEMO", 1, ⟨"acme", "widgets"⟩, 55⟩ : mongoMapping)],
      ∃ k prs pr,
        (k, prs) ∈ [((1 : Int), [jiraPR.mk "P55" "MERGED" "https://github.com/acme/widgets/pull/55",
          jiraPR.mk "P56" "OPEN" "https://github.com/acme/widgets/pull/56"])] ∧
        pr ∈ prs ∧ pr.Status = "MERGED" ∧ convertOnePR "DEMO" k pr = some r :=
  convert_merged_only "DEMO" _ _ (by decide)

/-- C6. Parsing correctness on well-formed input: the URL
`https://github.com/acme/widgets/pull/42` yields owner `acme` and name
`widgets`, and the tracker id `P123` yields prId `123`; the conversion of a
merged PR with those fields produces exactly that MappingRecord. -/
theorem parse_wellformed :
    convertJiraMappingsToMongoMappings "DEMO"
      [(1001, [⟨"P123", "MERGED", "https://github.com/acme/widgets/pull/42"⟩])] =
      some [⟨"DEMO", 1001, ⟨"acme", "widgets"⟩, 123⟩] ∧
    urlOwnerName "https://github.com/acme/widgets/pull/42" = some ("acme", "widgets") ∧
    atoiChars ("P123".data.drop 1) = 123 := by
  refine ⟨by decide, by decide, by decide⟩

/-- C1. Idempotence of the backfill stage: if a run against a store
completes and produces the records `R`, then a second run against the store
holding those records, with the same upstream dev-status responses (no new
merged PRs), completes and produces zero new MappingRecords; moreover every
issue id that produced a record in the first run is in the second run's
already-mapped set. -/
theorem backfill_idempotent (project : String) (store : List mongoMapping)
    (bugs : List bug) (dev : Int → DevFetch) (R : List mongoMapping)
    (h : backfillRun project store bugs dev = some R) :
    backfillRun project (store ++ R) bugs dev = some [] ∧
    ∀ r ∈ R, r.IssueID ∈ getAlreadyMappedIssueIDs (store ++ R) := by
  refine ⟨?_, ?_⟩
  swap
  · intro r hr
    rw [getAlreadyMappedIssueIDs]
    exact List.mem_map_of_mem _ (List.mem_append_right _ hr)
  unfold backfillRun at h ⊢
  cases h1 : collectLoop (getAlreadyMappedIssueIDs store) dev [] bugs with
  | none => rw [h1] at h; simp at h
  | some m1 =>
    rw [h1] at h
    have h' : (if m1.isEmpty then some [] else
        convertJiraMappingsToMongoMappings project m1) = some R := h
    by_cases hm1 : m1.isEmpty
    · rw [if_pos hm1] at h'
      injection h' with hR
      subst hR
      rw [List.append_nil, h1]
      show (if m1.isEmpty then some [] else
        convertJiraMappingsToMongoMappings project m1) = some []
      rw [if_pos hm1]
    · rw [if_neg hm1] at h'
      have hsub : ∀ x : Int, x ∈ getAlreadyMappedIssueIDs store →
          x ∈ getAlreadyMappedIssueIDs (store ++ R) := by
        intro x hx
        rw [getAlreadyMappedIssueIDs] at hx ⊢
        rw [List.map_append]
        exact List.mem_append_left _ hx
      have hdev : ∀ b ∈ bugs,
          ¬ (getAlreadyMappedIssueIDs (store ++ R)).contains b.ID = true →
          findDevStatus (dev b.ID) ≠ .aborted ∧
          ∀ prs, findDevStatus (dev b.ID) = .found prs →
            ∀ pr ∈ prs, pr.Status ≠ "MERGED" := by
        intro b hb hcon
        have hcon1 : ¬ (getAlreadyMappedIssueIDs store).contains b.ID = true := by
          intro hc
          exact hcon ((int_contains_iff _ _).mpr (hsub _ ((int_contains_iff _ _).mp hc)))
        refine ⟨collectLoop_ne_aborted _ dev [] bugs m1 h1 b hb hcon1, ?_⟩
        intro prs hf pr hpr hst
        have hl := collectLoop_lookup_found _ dev [] bugs m1 b prs h1 hb hcon1 hf
        have hmem := lookupGo_mem m1 b.ID prs hl
        obtain ⟨r, hrR, hrid⟩ := convert_merged_covered project m1 R h' b.ID prs hmem pr hpr hst
        apply hcon
        rw [int_contains_iff, getAlreadyMappedIssueIDs, List.map_append]
        exact List.mem_append_right _ (hrid ▸ List.mem_map_of_mem _ hrR)
      obtain ⟨m2, hm2, hP⟩ := collectLoop_noMerged _ dev bugs [] hdev (by simp)
      rw [hm2]
      show (if m2.isEmpty then some [] else
        convertJiraMappingsToMongoMappings project m2) = some []
      by_cases hm2e : m2.isEmpty
      · rw [if_pos hm2e]
      · rw [if_neg hm2e]
        exact convert_of_noMerged project m2 hP

/-- Dev-status oracle used by concrete backfill runs: issue 1 has one merged
PR, every other issue id fails at the transport layer. -/
def devFoundW : Int → DevFetch := fun i =>
  if i = 1 then .response [[⟨"P55", "MERGED", "https://github.com/acme/widgets/pull/55"⟩]]
  else .transportError

/-- Witness for C1 at a concrete run: after the first run inserts the
record for issue 1, the second run over the same bug list produces zero
records. -/
theorem backfill_idempotent_witness :
    backfillRun "DEMO" ([] ++ [⟨"DEMO", 1, ⟨"acme", "widgets"⟩, 55⟩]) [⟨1, "B-1"⟩]
      devFoundW = some [] ∧
    ∀ r ∈ [(⟨"DEMO", 1, ⟨"acme", "widgets"⟩, 55⟩ : mongoMapping)],
      r.IssueID ∈ getAlreadyMappedIssueIDs ([] ++ [⟨"DEMO", 1, ⟨"acme", "widgets"⟩, 55⟩]) :=
  backfill_idempotent "DEMO" [] [⟨1, "B-1"⟩] devFoundW _ (by decide)

/-- C4. An issue whose dev-status response reports zero linked PRs gets the
`notFound` outcome — a returned error value, distinct from the
transport/parse failures which panic (`aborted`) — and the backfill
orchestrator skips it: removing the issue from the bug list leaves the run
unchanged, and no MappingRecord for that issue id is ever produced. -/
theorem devstatus_notFound_skipped (dev : Int → DevFetch) (i : Int)
    (ds : List (List jiraPR)) (h : dev i = .response ([] :: ds)) :
    findDevStatus (dev i) = .notFound ∧
    (∀ project store bugs₁ bugs₂ (b : bug), b.ID = i →
      backfillRun project store (bugs₁ ++ b :: bugs₂) dev =
        backfillRun project store (bugs₁ ++ bugs₂) dev) ∧
    (∀ project store bugs R, backfillRun project store bugs dev = some R →
      ∀ r ∈ R, r.IssueID ≠ i) := by
  have hnf : findDevStatus (dev i) = .notFound := by rw [h]; rfl
  refine ⟨hnf, ?_, ?_⟩
  · intro project store bugs₁ bugs₂ b hbi
    unfold backfillRun
    rw [collectLoop_notFound_skip _ dev [] bugs₁ bugs₂ b (by rw [hbi]; exact hnf)]
  · intro project store bugs R hrun r hr hri
    unfold backfillRun at hrun
    cases h1 : collectLoop (getAlreadyMappedIssueIDs store) dev [] bugs with
    | none => rw [h1] at hrun; simp at hrun
    | some m1 =>
      rw [h1] at hrun
      have hrun' : (if m1.isEmpty then some [] else
          convertJiraMappingsToMongoMappings project m1) = some R := hrun
      by_cases hm1 : m1.isEmpty
      · rw [if_pos hm1] at hrun'
        injection hrun' with hR
        subst hR
        simp at hr
      · rw [if_neg hm1] at hrun'
        obtain ⟨k, prs, pr, hkm, hpr, hst, hcv⟩ := convert_mem project m1 R hrun' r hr
        have hk := convertOnePR_issueID project k pr r hcv
        rcases collectLoop_mem _ dev [] bugs m1 h1 (k, prs) hkm with h2 | h2
        · simp at h2
        · rw [show k = i from hk ▸ hri] at h2
          rw [hnf] at h2
          exact absurd h2 (by simp)

/-- Dev-status oracle for the C4 witness: issue 7 reports zero linked PRs,
every other issue id fails at the transport layer. -/
def devEmptyW : Int → DevFetch := fun i =>
  if i = 7 then .response [[]] else .transportError

/-- Witness for C4 at issue 7: the client outcome is `notFound` and the run
over the one-bug list equals the run over the empty list. -/
theorem devstatus_notFound_skipped_witness :
    findDevStatus (devEmptyW 7) = .notFound ∧
    backfillRun "DEMO" [] ([] ++ bug.mk 7 "BUG-7" :: []) devEmptyW =
      backfillRun "DEMO" [] ([] ++ []) devEmptyW :=
  ⟨(devstatus_notFound_skipped devEmptyW 7 [] (by decide)).1,
    (devstatus_notFound_skipped devEmptyW 7 [] (by decide)).2.1 "DEMO" [] [] []
      (bug.mk 7 "BUG-7") rfl⟩

/-- Dev-status oracle exhibiting a transport failure: issue 1 fails at the
transport layer, issue 2 has one merged PR. -/
def devFatalW : Int → DevFetch := fun i =>
  if i = 1 then .transportError
  else .response [[⟨"P55", "MERGED", "https://github.com/acme/widgets/pull/55"⟩]]

/-- Counterexample to C5 as stated: a transport failure on issue 1's
dev-status lookup aborts the whole run (`none`), so issue 2 — which alone
would produce a record — is not processed; the error is not contained to
the failing issue. -/
theorem devstatus_fatal_counterexample :
    backfillRun "DEMO" [] [⟨1, "BUG-1"⟩, ⟨2, "BUG-2"⟩] devFatalW = none ∧
    backfillRun "DEMO" [] [⟨2, "BUG-2"⟩] devFatalW =
      some [⟨"DEMO", 2, ⟨"acme", "widgets"⟩, 55⟩] := by
  refine ⟨by decide, by decide⟩

/-- C5 amended: a dev-status lookup that fails with anything other than the
zero-linked-PRs outcome (transport or decode failure, both of which panic)
is fatal to the whole run, not just to that issue: the run returns no
record list at all. Only the `notFound` outcome is a per-issue skip. -/
theorem devstatus_fatal_abort (project : String) (store : List mongoMapping)
    (bugs : List bug) (dev : Int → DevFetch) (b : bug) (hb : b ∈ bugs)
    (hcon : ¬ (getAlreadyMappedIssueIDs store).contains b.ID = true)
    (hf : findDevStatus (dev b.ID) = .aborted) :
    backfillRun project store bugs dev = none := by
  unfold backfillRun
  rw [collectLoop_abort _ dev [] bugs b hb hcon hf]

/-- Witness for the amended C5: the concrete two-bug run with a transport
failure on issue 1 returns `none`. -/
theorem devstatus_fatal_abort_witness :
    backfillRun "DEMO" [] [⟨1, "BUG-1"⟩, ⟨2, "BUG-2"⟩] devFatalW = none :=
  devstatus_fatal_abort "DEMO" [] [⟨1, "BUG-1"⟩, ⟨2, "BUG-2"⟩] devFatalW ⟨1, "BUG-1"⟩
    (by decide) (by decide) (by decide)

/-- Counterexample to C7 as stated: the merged PR with tracker id `Pabc`
(no parseable numeric suffix) and a well-formed URL does not abort the run —
the Atoi error is discarded and a MappingRecord with prId `0` is produced. -/
theorem parse_malformed_counterexample :
    convertJiraMappingsToMongoMappings "DEMO"
      [(7, [⟨"Pabc", "MERGED", "https://github.com/acme/widgets/pull/9"⟩])] =
      some [⟨"DEMO", 7, ⟨"acme", "widgets"⟩, 0⟩] ∧
    goAtoiValid ("Pabc".data.drop 1) = false := by
  refine ⟨by decide, by decide⟩

/-- C7 amended: a merged PR aborts the run exactly when its URL defeats the
unguarded split indexing (no `github.com/` marker, or no `/` between owner
and name) or its tracker id is empty; a tracker id whose suffix is not a
valid integer does not abort — the Atoi error is ignored and a record with
prId `0` is produced. -/
theorem parse_malformed_behavior (project : String) (k : Int) (pr : jiraPR)
    (hst : pr.Status = "MERGED") :
    (convertOnePR project k pr = none ↔ urlOwnerName pr.URL = none ∨ pr.ID = "") ∧
    (∀ r, convertOnePR project k pr = some r →
      goAtoiValid (pr.ID.data.drop 1) = false → r.PRID = 0) ∧
    (∀ m prs, (k, prs) ∈ m → pr ∈ prs → convertOnePR project k pr = none →
      convertJiraMappingsToMongoMappings project m = none) := by
  refine ⟨?_, ?_, ?_⟩
  · unfold convertOnePR
    cases hu : urlOwnerName pr.URL with
    | none => simp
    | some pq =>
      obtain ⟨o, n⟩ := pq
      cases hd : pr.ID.data with
      | nil =>
        simp only [Option.some.injEq]
        constructor
        · intro _
          right
          cases hID : pr.ID with
          | mk cs => rw [hID] at hd; simp at hd; rw [hd]
        · intro _; trivial
      | cons c idRest =>
        simp only []
        constructor
        · intro hco; exact absurd hco (by simp)
        · intro hor
          rcases hor with h0 | h0
          · simp at h0
          · rw [h0] at hd; simp at hd
  · intro r hr hv
    unfold convertOnePR at hr
    cases hu : urlOwnerName pr.URL with
    | none => rw [hu] at hr; simp at hr
    | some pq =>
      rw [hu] at hr
      obtain ⟨o, n⟩ := pq
      cases hd : pr.ID.data with
      | nil => rw [hd] at hr; simp at hr
      | cons c idRest =>
        rw [hd] at hr
        simp only [Option.some.injEq] at hr
        rw [hd] at hv
        simp only [List.drop_succ_cons, List.drop_zero] at hv
        rw [← hr]
        show atoiChars idRest = 0
        rw [atoiChars, hv]
        rfl

  · intro m prs hm hpr hc
    exact convert_abort project m k prs hm
      (convertPRList_abort project k prs pr hpr hst hc)

/-- Merged PR with an unparseable tracker-id suffix, used to witness the
amended C7. -/
def prBadIdW : jiraPR := ⟨"Pabc", "MERGED", "https://github.com/acme/widgets/pull/9"⟩

/-- Witness for the amended C7 at the concrete merged PR `Pabc`: the
conversion characterization holds there, and its record carries prId 0. -/
theorem parse_malformed_behavior_witness :
    (convertOnePR "DEMO" 7 prBadIdW = none ↔
      urlOwnerName prBadIdW.URL = none ∨ prBadIdW.ID = "") ∧
    (∀ r, convertOnePR "DEMO" 7 prBadIdW = some r →
      goAtoiValid (prBadIdW.ID.data.drop 1) = false → r.PRID = 0) ∧
    (∀ m prs, ((7 : Int), prs) ∈ m → prBadIdW ∈ prs →
      convertOnePR "DEMO" 7 prBadIdW = none →
      convertJiraMappingsToMongoMappings "DEMO" m = none) :=
  parse_malformed_behavior "DEMO" 7 prBadIdW rfl

/-- Counterexample to C8 as stated: the conversion succeeds on a merged PR
whose URL `github.com//widgets/pull/1` has an empty owner segment, and the
produced MappingRecord's repo owner is the empty string. -/
theorem repoRef_nonempty_counterexample :
    convertJiraMappingsToMongoMappings "DEMO"
      [(5, [⟨"P1", "MERGED", "github.com//widgets/pull/1"⟩])] =
      some [⟨"DEMO", 5, ⟨"", "widgets"⟩, 1⟩] ∧
    (mongoMapping.mk "DEMO" 5 ⟨"", "widgets"⟩ 1).Repo.Owner = "" := by
  refine ⟨by decide, rfl⟩

/-- URL whose parse yields non-empty owner and name segments. -/
def goodRepoURL (url : String) : Bool :=
  match urlOwnerName url with
  | some (o, n) => !(o == "") && !(n == "")
  | none => false

/-- C8 amended: every MappingRecord produced by a successful conversion has
non-empty repo owner and name, provided each MERGED PR's URL parses to
non-empty owner and name segments (the code itself accepts empty segments,
as the counterexample shows). -/
theorem repoRef_nonempty_of_wellformed (project : String)
    (m : List (Int × List jiraPR)) (R : List mongoMapping)
    (h : convertJiraMappingsToMongoMappings project m = some R)
    (hurl : ∀ e ∈ m, ∀ pr ∈ e.2, pr.Status = "MERGED" → goodRepoURL pr.URL = true) :
    ∀ r ∈ R, r.Repo.Owner ≠ "" ∧ r.Repo.Name ≠ "" := by
  intro r hr
  obtain ⟨k, prs, pr, hkm, hpr, hst, hcv⟩ := convert_mem project m R h r hr
  obtain ⟨o, n, hu, hrepo⟩ := convertOnePR_repo project k pr r hcv
  have hg := hurl (k, prs) hkm pr hpr hst
  rw [goodRepoURL, hu] at hg
  simp only [Bool.and_eq_true, Bool.not_eq_true', beq_eq_false_iff_ne] at hg
  rw [hrepo]
  exact hg

/-- Witness for the amended C8 at a concrete well-formed input: the record
produced from `https://github.com/acme/widgets/pull/1` has non-empty owner
and name. -/
theorem repoRef_nonempty_of_wellformed_witness :
    (mongoMapping.mk "DEMO" 5 ⟨"acme", "widgets"⟩ 1).Repo.Owner ≠ "" ∧
    (mongoMapping.mk "DEMO" 5 ⟨"acme", "widgets"⟩ 1).Repo.Name ≠ "" :=
  repoRef_nonempty_of_wellformed "DEMO"
    [(5, [⟨"P1", "MERGED", "https://github.com/acme/widgets/pull/1"⟩])]
    [⟨"DEMO", 5, ⟨"acme", "widgets"⟩, 1⟩] (by decide) (by decide)
    (mongoMapping.mk "DEMO" 5 ⟨"acme", "widgets"⟩ 1) (List.mem_cons_self _ _)

/-! ### Claim theorems: diff enrichment stage -/

/-- Membership characterization of the anti-join: a pair is selected exactly
when some mapping record carries it and no diff record shares its prId. -/
theorem mem_getNotAnalyzedPRs (jira : List mongoMapping) (github : List prChanges)
    (r : Repo) (id : Int) :
    (r, id) ∈ getNotAnalyzedPRs jira github ↔
      ∃ m ∈ jira, m.Repo = r ∧ m.PRID = id ∧ ∀ g ∈ github, g.PRID ≠ id := by
  unfold getNotAnalyzedPRs
  constructor
  · intro hmem
    obtain ⟨p, hp, hproj⟩ := List.mem_map.mp hmem
    obtain ⟨hpin, hg⟩ := List.mem_filter.mp hp
    obtain ⟨m, hm, hfm⟩ := List.mem_map.mp hpin
    subst hfm
    injection hproj with h1 h2
    refine ⟨m, hm, h1, h2, ?_⟩
    intro g hgg hgid
    have hlen : (github.filter (fun g => g.PRID == m.PRID)).length = 0 := by
      simpa using hg
    have hnil := List.length_eq_zero.mp hlen
    have : g ∈ github.filter (fun g => g.PRID == m.PRID) :=
      List.mem_filter.mpr ⟨hgg, by simp [hgid, show m.PRID = id from h2]⟩
    rw [hnil] at this
    simp at this
  · rintro ⟨m, hm, hrepo, hid, hnone⟩
    refine List.mem_map.mpr
      ⟨(m, github.filter (fun g => g.PRID == m.PRID)), ?_, by rw [hrepo, hid]⟩
    refine List.mem_filter.mpr ⟨List.mem_map.mpr ⟨m, hm, rfl⟩, ?_⟩
    have hnil : github.filter (fun g => g.PRID == m.PRID) = [] := by
      rw [List.filter_eq_nil_iff]
      intro g hg
      simp only [beq_iff_eq]
      rw [hid]
      exact hnone g hg
    rw [hnil]
    rfl

/-- C3. Anti-join correctness for diff enrichment: a `(repo, prId)` pair is
selected exactly when a mapping record carries it and no diff record has the
same prId; in particular, with mappings for `acme/widgets` PRs 42 and 43 and
a diff record for prId 42, exactly `(acme/widgets, 43)` is selected. -/
theorem getNotAnalyzedPRs_antijoin (jira : List mongoMapping)
    (github : List prChanges) (r : Repo) (id : Int) :
    ((r, id) ∈ getNotAnalyzedPRs jira github ↔
      ∃ m ∈ jira, m.Repo = r ∧ m.PRID = id ∧ ∀ g ∈ github, g.PRID ≠ id) ∧
    getNotAnalyzedPRs
      [⟨"X", 10, ⟨"acme", "widgets"⟩, 42⟩, ⟨"X", 11, ⟨"acme", "widgets"⟩, 43⟩]
      [⟨"acme/widgets", 42, []⟩] = [(⟨"acme", "widgets"⟩, 43)] :=
  ⟨mem_getNotAnalyzedPRs jira github r id, by decide⟩

/-- Structure of a completed `collectPRChanges` run: one output record per
input pair, in input order, each carrying its pair's repo string and prId
and the first fetched page of files mapped to changes in order. -/
theorem collectPRChanges_spec (upstream : String → String → Int → Option (List ghFile))
    (prs : List PR) (out : List prChanges) (h : collectPRChanges upstream prs = some out) :
    out.length = prs.length ∧
    ∀ i (hp : i < prs.length) (ho : i < out.length),
      (out.get ⟨i, ho⟩).Repo = (prs.get ⟨i, hp⟩).Repo ∧
      (out.get ⟨i, ho⟩).PRID = (prs.get ⟨i, hp⟩).PRID ∧
      ∃ owner name rest files,
        goSplit (prs.get ⟨i, hp⟩).Repo "/" = owner :: name :: rest ∧
        upstream owner name (prs.get ⟨i, hp⟩).PRID = some files ∧
        (out.get ⟨i, ho⟩).Changes = (files.take 100).map toChange := by
  induction prs generalizing out with
  | nil =>
    simp only [collectPRChanges, Option.some.injEq] at h
    subst h
    simp
  | cons p rest ih =>
    rw [collectPRChanges] at h
    cases hs : goSplit p.Repo "/" with
    | nil =>
      rw [hs] at h
      exact absurd (show (none : Option (List prChanges)) = some out from h) (by simp)
    | cons owner rest1 =>
      cases rest1 with
      | nil =>
        rw [hs] at h
        exact absurd (show (none : Option (List prChanges)) = some out from h) (by simp)
      | cons name rest2 =>
        rw [hs] at h
        have h' : (match listFiles upstream owner name p.PRID with
            | none => none
            | some files =>
              match collectPRChanges upstream rest with
              | none => none
              | some tail =>
                some (⟨p.Repo, p.PRID, files.map toChange⟩ :: tail)) = some out := h
        cases hlf : listFiles upstream owner name p.PRID with
        | none => rw [hlf] at h'; simp at h'
        | some files1 =>
          rw [hlf] at h'
          cases hrest : collectPRChanges upstream rest with
          | none => rw [hrest] at h'; simp at h'
          | some tail =>
            rw [hrest] at h'
            simp only [Option.some.injEq] at h'
            subst h'
            obtain ⟨hlen, hind⟩ := ih tail hrest
            refine ⟨by simp [hlen], ?_⟩
            intro i hp ho
            cases i with
            | zero =>
              refine ⟨rfl, rfl, owner, name, rest2, ?_⟩
              unfold listFiles at hlf
              cases hup : upstream owner name p.PRID with
              | none => rw [hup] at hlf; simp at hlf
              | some files =>
                rw [hup] at hlf
                simp only [Option.some.injEq] at hlf
                exact ⟨files, hs, hup, by rw [hlf]; rfl⟩
            | succ j =>
              exact hind j (by simpa using hp) (by simpa using ho)

/-- GitHub oracle with a PR of 101 changed files, used against C9. -/
def ghBigW : String → String → Int → Option (List ghFile) := fun o n p =>
  if o = "acme" ∧ n = "widgets" ∧ p = 55 then
    some (List.replicate 101 ⟨"a.go", "modified", 3, 1, 4⟩)
  else none

/-- Counterexample to C9 as stated: for a PR whose full changed-file list
has 101 entries, the single `ListFiles` call (no pagination loop) captures
only the first 100, so the stored record does not contain one FileDiff per
changed file. -/
theorem collect_changes_counterexample :
    ghBigW "acme" "widgets" 55 =
      some (List.replicate 101 ⟨"a.go", "modified", 3, 1, 4⟩) ∧
    collectPRChanges ghBigW [⟨"acme/widgets", 55⟩] =
      some [⟨"acme/widgets", 55,
        List.replicate 100 (toChange ⟨"a.go", "modified", 3, 1, 4⟩)⟩] := by
  refine ⟨by decide, by decide⟩

/-- C9 amended: for every selected pair whose PR has at most 100 changed
files, the enrichment stage captures the entire changed-file list — the
record holds one change per file, in order, with filename, status and the
three counts (via `toChange`); beyond 100 files only the first page is
captured. -/
theorem collect_changes_first_page (upstream : String → String → Int → Option (List ghFile))
    (prs : List PR) (out : List prChanges) (i : Nat) (owner name : String)
    (rest : List String) (files : List ghFile)
    (h : collectPRChanges upstream prs = some out) (hp : i < prs.length)
    (hsplit : goSplit (prs.get ⟨i, hp⟩).Repo "/" = owner :: name :: rest)
    (hup : upstream owner name (prs.get ⟨i, hp⟩).PRID = some files)
    (hlen : files.length ≤ 100) :
    ∃ ho : i < out.length,
      (out.get ⟨i, ho⟩).Repo = (prs.get ⟨i, hp⟩).Repo ∧
      (out.get ⟨i, ho⟩).PRID = (prs.get ⟨i, hp⟩).PRID ∧
      (out.get ⟨i, ho⟩).Changes = files.map toChange := by
  obtain ⟨hlen2, hind⟩ := collectPRChanges_spec upstream prs out h
  have ho : i < out.length := by rw [hlen2]; exact hp
  refine ⟨ho, ?_⟩
  obtain ⟨h1, h2, o', n', r', f', hs', hup', hch⟩ := hind i hp ho
  rw [hsplit] at hs'
  injection hs' with e1 hs''
  injection hs'' with e2 _
  subst e1
  subst e2
  rw [hup] at hup'
  injection hup' with ef
  subst ef
  rw [List.take_of_length_le hlen] at hch
  exact ⟨h1, h2, hch⟩

/-- GitHub oracle with a single one-file PR (the spec's end-to-end diff
scenario), used to witness the amended C9. -/
def ghOneW : String → String → Int → Option (List ghFile) := fun o n p =>
  if o = "acme" ∧ n = "widgets" ∧ p = 55 then
    some [⟨"a.go", "modified", 3, 1, 4⟩]
  else none

/-- Witness for the amended C9 at the spec's scenario: the one-file PR for
`acme/widgets` 55 yields a record whose single change matches the file
exactly. -/
theorem collect_changes_first_page_witness :
    ∃ ho : 0 < ([(⟨"acme/widgets", 55,
        [toChange ⟨"a.go", "modified", 3, 1, 4⟩]⟩ : prChanges)]).length,
      (([(⟨"acme/widgets", 55, [toChange ⟨"a.go", "modified", 3, 1, 4⟩]⟩ : prChanges)]).get
          ⟨0, ho⟩).Repo = (([(⟨"acme/widgets", 55⟩ : PR)]).get ⟨0, by decide⟩).Repo ∧
      (([(⟨"acme/widgets", 55, [toChange ⟨"a.go", "modified", 3, 1, 4⟩]⟩ : prChanges)]).get
          ⟨0, ho⟩).PRID = (([(⟨"acme/widgets", 55⟩ : PR)]).get ⟨0, by decide⟩).PRID ∧
      (([(⟨"acme/widgets", 55, [toChange ⟨"a.go", "modified", 3, 1, 4⟩]⟩ : prChanges)]).get
          ⟨0, ho⟩).Changes = [⟨"a.go", "modified", 3, 1, 4⟩].map toChange :=
  collect_changes_first_page ghOneW [⟨"acme/widgets", 55⟩]
    [⟨"acme/widgets", 55, [toChange ⟨"a.go", "modified", 3, 1, 4⟩]⟩] 0 "acme" "widgets"
    [] [⟨"a.go", "modified", 3, 1, 4⟩] (by decide) (by decide) (by decide) (by decide)
    (by decide)

/-- C10. One record per selected pair: a completed `collectPRChanges` run
returns exactly one record per input pair, in input order, carrying the
pair's repo and prId; a pair whose PR reports zero changed files still
yields a record with an empty change list; and no pair of the run is
selected again by an anti-join over any mapping store once the output is in
the diff store. -/
theorem collect_changes_one_record_per_pair
    (upstream : String → String → Int → Option (List ghFile))
    (prs : List PR) (out : List prChanges) (hne : prs ≠ [])
    (h : collectPRChanges upstream prs = some out) :
    out.length = prs.length ∧
    (∀ i (hp : i < prs.length) (ho : i < out.length),
      (out.get ⟨i, ho⟩).Repo = (prs.get ⟨i, hp⟩).Repo ∧
      (out.get ⟨i, ho⟩).PRID = (prs.get ⟨i, hp⟩).PRID ∧
      (∀ owner name rest, goSplit (prs.get ⟨i, hp⟩).Repo "/" = owner :: name :: rest →
        upstream owner name (prs.get ⟨i, hp⟩).PRID = some [] →
        (out.get ⟨i, ho⟩).Changes = [])) ∧
    (∀ jira github r i (hp : i < prs.length),
      (r, (prs.get ⟨i, hp⟩).PRID) ∉ getNotAnalyzedPRs jira (github ++ out)) := by
  obtain ⟨hlen, hind⟩ := collectPRChanges_spec upstream prs out h
  refine ⟨hlen, ?_, ?_⟩
  · intro i hp ho
    obtain ⟨h1, h2, o', n', r', f', hs', hup', hch⟩ := hind i hp ho
    refine ⟨h1, h2, ?_⟩
    intro owner name rest hsplit hup
    rw [hsplit] at hs'
    injection hs' with e1 hs''
    injection hs'' with e2 _
    subst e1
    subst e2
    rw [hup] at hup'
    injection hup' with ef
    rw [← ef] at hch
    simpa using hch
  · intro jira github r i hp hmem
    rw [mem_getNotAnalyzedPRs] at hmem
    obtain ⟨mm, hmm, hrepo, hid, hnone⟩ := hmem
    have ho : i < out.length := by rw [hlen]; exact hp
    obtain ⟨h1, h2, _⟩ := hind i hp ho
    exact hnone (out.get ⟨i, ho⟩) (List.mem_append_right _ (List.get_mem out i ho)) h2

/-- GitHub oracle with a zero-file PR, used to witness C10. -/
def ghEmptyW : String → String → Int → Option (List ghFile) := fun o n p =>
  if o = "acme" ∧ n = "widgets" ∧ p = 55 then some [] else none

/-- Witness for C10 at a concrete one-pair run whose PR has zero changed
files: the run yields exactly one record with an empty change list. -/
theorem collect_changes_one_record_per_pair_witness :
    ([(⟨"acme/widgets", 55, []⟩ : prChanges)]).length =
      ([(⟨"acme/widgets", 55⟩ : PR)]).length ∧
    (∀ i (hp : i < ([(⟨"acme/widgets", 55⟩ : PR)]).length)
        (ho : i < ([(⟨"acme/widgets", 55, []⟩ : prChanges)]).length),
      (([(⟨"acme/widgets", 55, []⟩ : prChanges)]).get ⟨i, ho⟩).Repo =
        (([(⟨"acme/widgets", 55⟩ : PR)]).get ⟨i, hp⟩).Repo ∧
      (([(⟨"acme/widgets", 55, []⟩ : prChanges)]).get ⟨i, ho⟩).PRID =
        (([(⟨"acme/widgets", 55⟩ : PR)]).get ⟨i, hp⟩).PRID ∧
      (∀ owner name rest,
        goSplit (([(⟨"acme/widgets", 55⟩ : PR)]).get ⟨i, hp⟩).Repo "/" =
          owner :: name :: rest →
        ghEmptyW owner name (([(⟨"acme/widgets", 55⟩ : PR)]).get ⟨i, hp⟩).PRID =
          some [] →
        (([(⟨"acme/widgets", 55, []⟩ : prChanges)]).get ⟨i, ho⟩).Changes = [])) ∧
    (∀ jira github r i (hp : i < ([(⟨"acme/widgets", 55⟩ : PR)]).length),
      (r, (([(⟨"acme/widgets", 55⟩ : PR)]).get ⟨i, hp⟩).PRID) ∉
        getNotAnalyzedPRs jira (github ++ [(⟨"acme/widgets", 55, []⟩ : prChanges)])) :=
  collect_changes_one_record_per_pair ghEmptyW [⟨"acme/widgets", 55⟩]
    [⟨"acme/widgets", 55, []⟩] (by decide) (by decide)

end Heatmap
